import Mathlib

/-!
# ptt-alertor, Telegram channel: dispatch, confirmation gate, message sender

A shallow embedding of `channels/telegram/telegram.go`.

* Texts are `String`s (sequences of Unicode code points; Telegram texts arrive
  through a JSON decoder, so they are valid UTF-8).
* The text of an outbound message is the sequence of its UTF-8 code units (the
  bytes of the Go string), because the splitter measures and cuts in code units
  and a hard cut may fall inside a character.
* The effects of the handlers (transport sends, Executor calls, follow-registry
  calls, log lines) are recorded in an explicit `World` value that is threaded
  through every function.
* A nil-pointer dereference is the only way a handler can fail; handlers that
  dereference optional fields return `Except Panic World`.
-/

namespace PttAlertor

/-! ## Regular expressions (the fragment of Go's `regexp` used by the gate) -/

/-- Abstract syntax of the regular expressions needed for the gate pattern. -/
inductive Regexp where
  | empty : Regexp
  | eps : Regexp
  | cls : (Char → Bool) → Regexp
  | cat : Regexp → Regexp → Regexp
  | alt : Regexp → Regexp → Regexp
  | star : Regexp → Regexp

namespace Regexp

/-- A single literal character. -/
def chr (c : Char) : Regexp := cls (fun d => d == c)

/-- A literal string: the concatenation of its characters. -/
def lit : List Char → Regexp
  | [] => eps
  | c :: cs => cat (chr c) (lit cs)

/-- The postfix operator `+` of the pattern language: one or more repetitions. -/
def plus (r : Regexp) : Regexp := cat r (star r)

/-- Whether the expression matches the empty text. -/
def nullable : Regexp → Bool
  | empty => false
  | eps => true
  | cls _ => false
  | cat r q => nullable r && nullable q
  | alt r q => nullable r || nullable q
  | star _ => true

/-- Brzozowski derivative of an expression with respect to one character. -/
def deriv : Regexp → Char → Regexp
  | empty, _ => empty
  | eps, _ => empty
  | cls p, c => if p c then eps else empty
  | cat r q, c =>
      if nullable r then alt (cat (deriv r c) q) (deriv q c) else cat (deriv r c) q
  | alt r q, c => alt (deriv r c) (deriv q c)
  | star r, c => cat (deriv r c) (star r)

/-- Whether the expression matches the whole text. -/
def matchFull : Regexp → List Char → Bool
  | r, [] => nullable r
  | r, c :: cs => matchFull (deriv r c) cs

/-- Whether the expression matches some prefix of the text: a search that is
anchored at the beginning of the text (a leading `^`) and free at its end. -/
def matchPrefix : Regexp → List Char → Bool
  | r, [] => nullable r
  | r, c :: cs => nullable r || matchPrefix (deriv r c) cs

/-- Zero or more blocks, each satisfying `P`, one after another. -/
inductive Star (P : List Char → Prop) : List Char → Prop
  | nil : Star P []
  | cons (a b : List Char) : P a → Star P b → Star P (a ++ b)

/-- The set of texts denoted by an expression. -/
def Lang : Regexp → List Char → Prop
  | empty => fun _ => False
  | eps => fun s => s = []
  | cls p => fun s => ∃ c, p c = true ∧ s = [c]
  | cat r q => fun s => ∃ a b, s = a ++ b ∧ Lang r a ∧ Lang q b
  | alt r q => fun s => Lang r s ∨ Lang q s
  | star r => fun s => Star (Lang r) s

end Regexp

/-- The character class `\s` of Go's `regexp` package: `[\t\n\f\r ]`. -/
def isSpace (c : Char) : Bool :=
  c == '\t' || c == '\n' || c == '\x0c' || c == '\r' || c == ' '

/-- The character class `.` of Go's `regexp` package without the `s` flag:
any character except a line feed. -/
def isDot (c : Char) : Bool := c != '\n'

/-- The two literal verbs of the gate pattern. -/
def verbDelete : String := "刪除"

/-- The second literal verb of the gate pattern. -/
def verbDeleteAuthor : String := "刪除作者"

/-- The pattern of `handleText`, `^(刪除|刪除作者)+\s.*\*+`, without its leading
anchor (the anchor is the search from the start of the text in
`requiresConfirmation`). -/
def gatePattern : Regexp :=
  .cat (.plus (.alt (.lit verbDelete.toList) (.lit verbDeleteAuthor.toList)))
    (.cat (.cls isSpace)
      (.cat (.star (.cls isDot))
        (.plus (.chr '*'))))

/-- The call `regexp.MatchString("^(刪除|刪除作者)+\\s.*\\*+", text)` of
`handleText`: the pattern starts with `^`, so a match starts at the beginning
of the text, and it may end anywhere. -/
def requiresConfirmation (text : String) : Bool :=
  Regexp.matchPrefix gatePattern text.toList

/-- The gated texts in the words of the specification: one of the two verbs,
then one whitespace character, then content that holds a `*`. -/
def SingleVerbForm (t : String) : Prop :=
  ∃ (verb : String) (w : Char) (rest : String),
    (verb = "刪除" ∨ verb = "刪除作者") ∧ isSpace w = true ∧ '*' ∈ rest.toList ∧
    t = verb ++ String.singleton w ++ rest

/-! ## The text splitter -/

/-- The UTF-8 code units (bytes, as numbers below 256) of one character: one
unit below U+0080, two below U+0800, three below U+10000, four above. -/
def utf8EncodeChar (c : Char) : List Nat :=
  let v := c.toNat
  if v < 0x80 then [v]
  else if v < 0x800 then [0xC0 + v / 64, 0x80 + v % 64]
  else if v < 0x10000 then [0xE0 + v / 4096, 0x80 + v / 64 % 64, 0x80 + v % 64]
  else [0xF0 + v / 262144, 0x80 + v / 4096 % 64, 0x80 + v / 64 % 64, 0x80 + v % 64]

/-- The UTF-8 code units of a text: the bytes of the Go string, which Go's `len`
counts and slicing cuts. -/
def utf8 (s : String) : List Nat :=
  s.toList.flatMap utf8EncodeChar

/-- The code unit of the line break `"\n"`. -/
def lineBreak : Nat := 10

/-- Position of the last occurrence of the code unit `c`, if there is one. -/
def lastIndexOf (c : Nat) : List Nat → Option Nat
  | [] => none
  | x :: xs =>
    match lastIndexOf c xs with
    | some i => some (i + 1)
    | none => if x == c then some 0 else none

/-- Modelled from the spec: the loop of `myutil.SplitTextByLineBreak` (package
`myutil` is not among the sources embedded here). A text is a sequence of code
units, the unit of length. An empty text gives no chunk; a text within the limit
is one chunk; a longer text is cut at the last line break at or before the limit
(the break is removed), and hard at the limit when there is no such break. The
first argument bounds the number of cuts; when it runs out the rest is one
chunk. -/
def splitChunks : Nat → List Nat → Nat → List (List Nat)
  | 0, text, _ => if text.isEmpty then [] else [text]
  | fuel + 1, text, limit =>
    if text.isEmpty then []
    else if text.length ≤ limit then [text]
    else
      match lastIndexOf lineBreak (text.take (limit + 1)) with
      | some i => text.take i :: splitChunks fuel (text.drop (i + 1)) limit
      | none => text.take limit :: splitChunks fuel (text.drop limit) limit

/-- Modelled from the spec: `myutil.SplitTextByLineBreak` on the code units of
a text, with as many cuts allowed as the text has code units (package `myutil`
is not among the sources embedded here). -/
def splitUnits (units : List Nat) (limit : Nat) : List (List Nat) :=
  splitChunks units.length units limit

/-- Modelled from the spec: `myutil.SplitTextByLineBreak(text, limit)` (package
`myutil` is not among the sources embedded here; section 4.3, step 1 and edge
cases). The chunks are sequences of code units. -/
def SplitTextByLineBreak (text : String) (limit : Nat) : List (List Nat) :=
  splitUnits (utf8 text) limit

/-! ## Transport types (the part of `tgbotapi` the handlers touch) -/

/-- The sender of a message or callback (`tgbotapi.User`). -/
structure User where
  ID : Int
deriving DecidableEq, Repr

/-- The conversation a message belongs to (`tgbotapi.Chat`). -/
structure Chat where
  ID : Int
deriving DecidableEq, Repr

/-- An inbound message (`tgbotapi.Message`). `From` and `Chat` are pointers in
the library and may be nil. `IsCommand`, `Command` and `CommandArguments` stand
for the results of the library methods of the same names on this message. -/
structure Message where
  From : Option User
  Chat : Option Chat
  Text : String
  IsCommand : Bool
  Command : String
  CommandArguments : String
deriving DecidableEq, Repr

/-- A button press (`tgbotapi.CallbackQuery`); `From` and `Message` are
pointers in the library and may be nil. -/
structure CallbackQuery where
  From : Option User
  Message : Option Message
  Data : String
deriving DecidableEq, Repr

/-- A raw update (`tgbotapi.Update`), with the two members `processUpdate`
inspects; both are pointers and may be nil. -/
structure Update where
  CallbackQuery : Option CallbackQuery
  Message : Option Message
deriving DecidableEq, Repr

/-- An inline button with callback data (`NewInlineKeyboardButtonData`). -/
structure InlineKeyboardButton where
  Text : String
  CallbackData : String
deriving DecidableEq, Repr

/-- The reply markup of an outbound message. -/
inductive ReplyMarkup where
  | none
  | inlineKeyboard (rows : List (List InlineKeyboardButton))
  | replyKeyboard (rows : List (List String))
  | removeKeyboard (selective : Bool)
deriving DecidableEq, Repr

/-- An outbound message (`tgbotapi.MessageConfig`); `Text` is the Go string
handed to the transport, as its code units. -/
structure MessageConfig where
  ChatID : Int
  Text : List Nat
  DisableWebPagePreview : Bool
  ReplyMarkup : ReplyMarkup
deriving DecidableEq, Repr

/-- The constructor `tgbotapi.NewMessage(chatID, text)`. -/
def NewMessage (chatID : Int) (text : List Nat) : MessageConfig :=
  { ChatID := chatID, Text := text, DisableWebPagePreview := false, ReplyMarkup := .none }

/-! ## The world: everything the handlers do to their collaborators -/

/-- One invocation of `command.HandleCommand(text, userID, flag)`. -/
structure ExecCall where
  text : String
  userID : String
  flag : Bool
deriving DecidableEq, Repr

/-- One invocation of `command.HandleTelegramFollow(userID, chatID)`. -/
structure FollowCall where
  userID : String
  chatID : Int
deriving DecidableEq, Repr

/-- One log line: level, message and fields. -/
structure LogEntry where
  level : String
  msg : String
  fields : List (String × String)
deriving DecidableEq, Repr

/-- The observable history: transport sends attempted, Executor calls,
follow-registry calls and log lines, each in order of occurrence. -/
structure World where
  sent : List MessageConfig
  calls : List ExecCall
  follows : List FollowCall
  logs : List LogEntry
deriving DecidableEq, Repr

/-- The collaborators: what the Executor answers to a call and whether a
transport send fails (with which error), both possibly depending on all that
happened before. -/
structure Env where
  HandleCommand : World → String → String → Bool → String
  Send : World → MessageConfig → Option String

/-- The only failure a handler can meet: dereferencing a nil pointer. -/
inductive Panic where
  | nilDereference
deriving DecidableEq, Repr

/-- Reading through a pointer that may be nil. -/
def deref {α : Type} : Option α → Except Panic α
  | some a => .ok a
  | none => .error .nilDereference

/-- The conversion `strconv.Itoa`: the decimal representation of an integer. -/
def Itoa (n : Int) : String := toString n

/-- Appending a log line. -/
def World.log (w : World) (e : LogEntry) : World :=
  { w with logs := w.logs ++ [e] }

/-- The call `bot.Send(msg)`: the attempt is recorded, the result is the error
if the transport fails. -/
def botSend (env : Env) (msg : MessageConfig) (w : World) : Option String × World :=
  (env.Send w msg, { w with sent := w.sent ++ [msg] })

/-- The call `command.HandleCommand(text, userID, flag)`. -/
def callHandleCommand (env : Env) (text userID : String) (flag : Bool) (w : World) :
    String × World :=
  (env.HandleCommand w text userID flag,
    { w with calls := w.calls ++ [{ text := text, userID := userID, flag := flag }] })

/-- The call `command.HandleTelegramFollow(userID, chatID)`. -/
def callHandleTelegramFollow (userID : String) (chatID : Int) (w : World) : World :=
  { w with follows := w.follows ++ [{ userID := userID, chatID := chatID }] }

/-! ## The message sender -/

/-- The constant `maxCharacters`. -/
def maxCharacters : Nat := 4096

/-- The function `sendTextMessage`: one transport send with link preview
disabled; a failure is logged and nothing is returned. -/
def sendTextMessage (env : Env) (chatID : Int) (text : List Nat) (w : World) : World :=
  let msg := { NewMessage chatID text with DisableWebPagePreview := true }
  match botSend env msg w with
  | (some err, w1) => w1.log ⟨"error", "Telegram Send Message Failed", [("error", err)]⟩
  | (none, w1) => w1.log ⟨"info", "Telegram Message Sent", [("chatID", Itoa chatID)]⟩

/-- The function `SendTextMessage`: the chunks of the text, sent one by one. -/
def SendTextMessage (env : Env) (chatID : Int) (text : String) (w : World) : World :=
  (SplitTextByLineBreak text maxCharacters).foldl
    (fun w1 msg => sendTextMessage env chatID msg w1) w

/-- The function `sendConfirmation`: the yes/no prompt for a gated command. -/
def sendConfirmation (env : Env) (chatID : Int) (cmd : String) (w : World) : World :=
  let markup := ReplyMarkup.inlineKeyboard [[⟨"是", cmd⟩, ⟨"否", "CANCEL"⟩]]
  let msg := { NewMessage chatID (utf8 ("確定" ++ cmd ++ "？")) with ReplyMarkup := markup }
  match botSend env msg w with
  | (some err, w1) => w1.log ⟨"error", "Telegram Send Confirmation Failed", [("error", err)]⟩
  | (none, w1) => w1

/-- The function `showReplyKeyboard`. -/
def showReplyKeyboard (env : Env) (chatID : Int) (w : World) : World :=
  let keyboard := ReplyMarkup.replyKeyboard [["清單", "推文清單", "排行", "指令"]]
  let msg := { NewMessage chatID (utf8 "顯示小鍵盤") with ReplyMarkup := keyboard }
  match botSend env msg w with
  | (some err, w1) => w1.log ⟨"error", "Telegram Show Reply Keyboard Failed", [("error", err)]⟩
  | (none, w1) => w1

/-- The function `hideReplyKeyboard`. -/
def hideReplyKeyboard (env : Env) (chatID : Int) (w : World) : World :=
  let msg := { NewMessage chatID (utf8 "隱藏小鍵盤") with ReplyMarkup := .removeKeyboard true }
  match botSend env msg w with
  | (some err, w1) => w1.log ⟨"error", "Telegram Hide Reply Keyboard Failed", [("error", err)]⟩
  | (none, w1) => w1

/-! ## The handlers -/

/-- The function `handleCallbackQuery`. -/
def handleCallbackQuery (env : Env) (update : Update) (w : World) : Except Panic World := do
  let cq ← deref update.CallbackQuery
  let sender ← deref cq.From
  let userID := Itoa sender.ID
  let (responseText, w1) :=
    if cq.Data = "CANCEL" then ("取消", w)
    else callHandleCommand env cq.Data userID true w
  let m ← deref cq.Message
  let chat ← deref m.Chat
  return SendTextMessage env chat.ID responseText w1

/-- The function `handleCommand`. -/
def handleCommand (env : Env) (update : Update) (w : World) : Except Panic World := do
  let m ← deref update.Message
  let sender ← deref m.From
  let userID := Itoa sender.ID
  let chat ← deref m.Chat
  let chatID := chat.ID
  if m.Command = "add" ∨ m.Command = "del" then
    let text := m.Command ++ " " ++ m.CommandArguments
    let (responseText, w1) := callHandleCommand env text userID true w
    return SendTextMessage env chatID responseText w1
  else if m.Command = "start" then
    let w1 := callHandleTelegramFollow userID chatID w
    return SendTextMessage env chatID "歡迎使用 Ptt Alertor\n輸入「指令」查看相關功能。" w1
  else if m.Command = "help" then
    let (responseText, w1) := callHandleCommand env "help" userID true w
    return SendTextMessage env chatID responseText w1
  else if m.Command = "list" then
    let (responseText, w1) := callHandleCommand env "list" userID true w
    return SendTextMessage env chatID responseText w1
  else if m.Command = "ranking" then
    let (responseText, w1) := callHandleCommand env "ranking" userID true w
    return SendTextMessage env chatID responseText w1
  else if m.Command = "showkeyboard" then
    return showReplyKeyboard env chatID w
  else if m.Command = "hidekeyboard" then
    return hideReplyKeyboard env chatID w
  else
    return SendTextMessage env chatID "I don't know the command" w

/-- The function `handleText`. -/
def handleText (env : Env) (update : Update) (w : World) : Except Panic World := do
  let m ← deref update.Message
  let sender ← deref m.From
  let userID := Itoa sender.ID
  let chat ← deref m.Chat
  let chatID := chat.ID
  let text := m.Text
  let w1 := w.log ⟨"info", "Processing text command", [("userID", userID), ("text", text)]⟩
  if requiresConfirmation text then
    return sendConfirmation env chatID text w1
  else
    let (responseText, w2) := callHandleCommand env text userID true w1
    let w3 := w2.log ⟨"info", "Command response", [("response", responseText)]⟩
    return SendTextMessage env chatID responseText w3

/-- The function `processUpdate`. -/
def processUpdate (env : Env) (update : Update) (w : World) : Except Panic World :=
  match update.CallbackQuery with
  | some cq =>
    handleCallbackQuery env update
      (w.log ⟨"info", "Telegram Callback Received", [("data", cq.Data)]⟩)
  | none =>
    match update.Message with
    | some m => do
      let sender ← deref m.From
      let w1 := w.log ⟨"info", "Telegram Message Received",
        [("from", Itoa sender.ID), ("text", m.Text)]⟩
      if m.IsCommand then handleCommand env update w1
      else if m.Text ≠ "" then handleText env update w1
      else return w1
    | none => .ok w

/-! ## Sample values for concrete instances -/

/-- A sample pair of collaborators: the Executor answers "ok " followed by the
command, and every send succeeds. -/
def sampleEnv : Env :=
  { HandleCommand := fun _ text _ _ => "ok " ++ text, Send := fun _ _ => none }

/-- The world in which nothing has happened yet. -/
def World.empty : World := { sent := [], calls := [], follows := [], logs := [] }

/-- A sample inbound message from sender 42 in chat `d`. -/
def sampleMessage (d : Int) (text : String) (isCommand : Bool) (name args : String) : Message :=
  { From := some ⟨42⟩, Chat := some ⟨d⟩, Text := text, IsCommand := isCommand,
    Command := name, CommandArguments := args }

/-- A sample text of one long line: 5000 letters and no line break. -/
def sampleLongLine : String := String.mk (List.replicate 5000 'a')

/-- A sample text of two lines: 100 letters, a line break, 5000 letters. -/
def sampleTwoLines : String :=
  String.mk (List.replicate 100 'a' ++ '\n' :: List.replicate 5000 'a')

/-! ## Correctness of the matcher -/

namespace Regexp

theorem nullable_iff (r : Regexp) : nullable r = true ↔ Lang r [] := by
  induction r with
  | empty => simp [nullable, Lang]
  | eps => simp [nullable, Lang]
  | cls p => simp [nullable, Lang]
  | cat r q ihr ihq =>
    simp only [nullable, Lang, Bool.and_eq_true, ihr, ihq]
    constructor
    · rintro ⟨h1, h2⟩
      exact ⟨[], [], rfl, h1, h2⟩
    · rintro ⟨a, b, hab, h1, h2⟩
      obtain ⟨ha, hb⟩ := List.append_eq_nil.1 hab.symm
      subst ha
      subst hb
      exact ⟨h1, h2⟩
  | alt r q ihr ihq => simp only [nullable, Lang, Bool.or_eq_true, ihr, ihq]
  | star r _ =>
    simp only [nullable, Lang, true_iff]
    exact Star.nil

theorem star_cons_iff (P : List Char → Prop) (c : Char) (x : List Char) :
    Star P (c :: x) ↔ ∃ a b, x = a ++ b ∧ P (c :: a) ∧ Star P b := by
  constructor
  · intro h
    generalize hs : c :: x = s at h
    induction h with
    | nil => cases hs
    | cons a b ha hb ihb =>
      cases a with
      | nil => exact ihb hs
      | cons d a1 =>
        simp only [List.cons_append, List.cons.injEq] at hs
        obtain ⟨hd, hx⟩ := hs
        subst hd
        exact ⟨a1, b, hx, ha, hb⟩
  · rintro ⟨a, b, hx, ha, hb⟩
    subst hx
    exact Star.cons (c :: a) b ha hb

theorem deriv_iff (r : Regexp) (c : Char) (x : List Char) :
    Lang (deriv r c) x ↔ Lang r (c :: x) := by
  induction r generalizing x with
  | empty => simp [deriv, Lang]
  | eps => simp [deriv, Lang]
  | cls p =>
    by_cases hp : p c = true
    · simp only [deriv, hp, if_true, Lang]
      constructor
      · intro hx
        exact ⟨c, hp, by rw [hx]⟩
      · rintro ⟨d, _, hd⟩
        simp only [List.cons.injEq] at hd
        exact hd.2
    · simp only [deriv, hp, Lang, Bool.false_eq_true, if_false, false_iff]
      rintro ⟨d, hd, hx⟩
      simp only [List.cons.injEq] at hx
      rw [← hx.1] at hd
      exact hp hd
  | cat r q ihr ihq =>
    have key : Lang (cat r q) (c :: x) ↔
        (∃ a b, x = a ++ b ∧ Lang r (c :: a) ∧ Lang q b) ∨ (Lang r [] ∧ Lang q (c :: x)) := by
      simp only [Lang]
      constructor
      · rintro ⟨a, b, hab, ha, hb⟩
        cases a with
        | nil =>
          right
          simp only [List.nil_append] at hab
          rw [hab]
          exact ⟨ha, hb⟩
        | cons d a1 =>
          left
          simp only [List.cons_append, List.cons.injEq] at hab
          obtain ⟨hd, hx⟩ := hab
          subst hd
          exact ⟨a1, b, hx, ha, hb⟩
      · rintro (⟨a, b, hx, ha, hb⟩ | ⟨h1, h2⟩)
        · exact ⟨c :: a, b, by rw [hx]; rfl, ha, hb⟩
        · exact ⟨[], c :: x, rfl, h1, h2⟩
    rw [key]
    by_cases hn : nullable r = true
    · simp only [deriv, hn, if_true, Lang, ihr, ihq]
      rw [← nullable_iff, hn]
      simp
    · have hn2 : ¬ Lang r [] := fun h => hn ((nullable_iff r).2 h)
      simp only [deriv, hn, Lang, ihr, Bool.false_eq_true, if_false]
      simp [hn2]
  | alt r q ihr ihq => simp only [deriv, Lang, ihr, ihq]
  | star r ih =>
    simp only [deriv, Lang, star_cons_iff, ih]

theorem matchFull_iff (r : Regexp) (s : List Char) : matchFull r s = true ↔ Lang r s := by
  induction s generalizing r with
  | nil => exact nullable_iff r
  | cons c cs ih => rw [matchFull, ih, deriv_iff]

theorem matchPrefix_iff (r : Regexp) (s : List Char) :
    matchPrefix r s = true ↔ ∃ p q, s = p ++ q ∧ Lang r p := by
  induction s generalizing r with
  | nil =>
    rw [matchPrefix, nullable_iff]
    constructor
    · intro h
      exact ⟨[], [], rfl, h⟩
    · rintro ⟨p, q, hpq, hp⟩
      obtain ⟨h1, _⟩ := List.append_eq_nil.1 hpq.symm
      subst h1
      exact hp
  | cons c cs ih =>
    rw [matchPrefix, Bool.or_eq_true, ih, nullable_iff]
    constructor
    · rintro (h | ⟨p, q, hpq, hp⟩)
      · exact ⟨[], c :: cs, rfl, h⟩
      · exact ⟨c :: p, q, by rw [hpq]; rfl, (deriv_iff r c p).1 hp⟩
    · rintro ⟨p, q, hpq, hp⟩
      cases p with
      | nil => exact Or.inl hp
      | cons d p1 =>
        simp only [List.cons_append, List.cons.injEq] at hpq
        obtain ⟨hd, hcs⟩ := hpq
        subst hd
        exact Or.inr ⟨p1, q, hcs, (deriv_iff r c p1).2 hp⟩

theorem lang_chr (c : Char) (s : List Char) : Lang (chr c) s ↔ s = [c] := by
  simp [chr, Lang]

theorem lang_lit (l s : List Char) : Lang (lit l) s ↔ s = l := by
  induction l generalizing s with
  | nil => simp [lit, Lang]
  | cons c cs ih =>
    simp only [lit, Lang, ih]
    constructor
    · rintro ⟨a, b, hs, ha, hb⟩
      rw [hs, (lang_chr c a).1 ha, hb]
      rfl
    · intro hs
      exact ⟨[c], cs, by rw [hs]; rfl, (lang_chr c [c]).2 rfl, rfl⟩

theorem lang_plus (r : Regexp) (s : List Char) :
    Lang (plus r) s ↔ ∃ a b, s = a ++ b ∧ Lang r a ∧ Star (Lang r) b := by
  simp only [plus, Lang]

theorem star_dot_iff (s : List Char) : Star (Lang (cls isDot)) s ↔ '\n' ∉ s := by
  constructor
  · intro h
    induction h with
    | nil => simp
    | cons a b ha _ ihb =>
      obtain ⟨c, hc, hac⟩ := ha
      subst hac
      simp only [isDot, bne_iff_ne, ne_eq] at hc
      simp only [List.singleton_append, List.mem_cons, not_or]
      exact ⟨fun h => hc h.symm, ihb⟩
  · intro h
    induction s with
    | nil => exact Star.nil
    | cons c cs ih =>
      simp only [List.mem_cons, not_or] at h
      have hc : Lang (cls isDot) [c] :=
        ⟨c, by simp only [isDot, bne_iff_ne, ne_eq]; exact fun e => h.1 e.symm, rfl⟩
      exact Star.cons [c] cs hc (ih h.2)

theorem star_flatten_iff (P : List Char → Prop) (s : List Char) :
    Star P s ↔ ∃ L : List (List Char), (∀ x ∈ L, P x) ∧ s = L.flatten := by
  constructor
  · intro h
    induction h with
    | nil => exact ⟨[], by simp, rfl⟩
    | cons a b ha _ ihb =>
      obtain ⟨L, hL, hb⟩ := ihb
      refine ⟨a :: L, ?_, by rw [hb]; rfl⟩
      intro x hx
      rcases List.mem_cons.1 hx with h1 | h1
      · rw [h1]
        exact ha
      · exact hL x h1
  · rintro ⟨L, hL, hs⟩
    subst hs
    induction L with
    | nil => exact Star.nil
    | cons a L ih =>
      exact Star.cons a L.flatten (hL a (List.mem_cons_self a L))
        (ih (fun x hx => hL x (List.mem_cons_of_mem a hx)))

end Regexp


/-! ## The confirmation gate -/

theorem gatePattern_prefix_iff (s : List Char) :
    (∃ p q, s = p ++ q ∧ Regexp.Lang gatePattern p) ↔
      ∃ (vs : List (List Char)) (w : Char) (mid tail : List Char),
        vs ≠ [] ∧ (∀ v ∈ vs, v = verbDelete.toList ∨ v = verbDeleteAuthor.toList) ∧
        isSpace w = true ∧ '\n' ∉ mid ∧ s = vs.flatten ++ w :: (mid ++ '*' :: tail) := by
  constructor
  · rintro ⟨p, q, hs, a, b, hp, hA, a2, b2, hb, hS, a3, b3, hb2, hD, hPl⟩
    obtain ⟨v, r, ha, hv, hr⟩ := (Regexp.lang_plus _ a).1 hA
    obtain ⟨L, hL, hrL⟩ := (Regexp.star_flatten_iff _ r).1 hr
    obtain ⟨w, hw, ha2⟩ := hS
    obtain ⟨x, y, hb3, hx, _⟩ := (Regexp.lang_plus _ b3).1 hPl
    have hx1 := (Regexp.lang_chr '*' x).1 hx
    have hmid := (Regexp.star_dot_iff a3).1 hD
    have hverb : ∀ u, Regexp.Lang (Regexp.alt (Regexp.lit verbDelete.toList)
        (Regexp.lit verbDeleteAuthor.toList)) u →
        u = verbDelete.toList ∨ u = verbDeleteAuthor.toList := by
      intro u hu
      rcases hu with h1 | h1
      · exact Or.inl ((Regexp.lang_lit _ u).1 h1)
      · exact Or.inr ((Regexp.lang_lit _ u).1 h1)
    refine ⟨v :: L, w, a3, y ++ q, List.cons_ne_nil v L, ?_, hw, hmid, ?_⟩
    · intro u hu
      rcases List.mem_cons.1 hu with h1 | h1
      · rw [h1]
        exact hverb v hv
      · exact hverb u (hL u h1)
    · rw [hs, hp, ha, hrL, hb, ha2, hb2, hb3, hx1]
      simp [List.append_assoc]
  · rintro ⟨vs, w, mid, tail, hne, hvs, hw, hmid, hs⟩
    cases vs with
    | nil => exact absurd rfl hne
    | cons v L =>
      have hverb : ∀ u, u = verbDelete.toList ∨ u = verbDeleteAuthor.toList →
          Regexp.Lang (Regexp.alt (Regexp.lit verbDelete.toList)
            (Regexp.lit verbDeleteAuthor.toList)) u := by
        intro u hu
        rcases hu with h1 | h1
        · exact Or.inl ((Regexp.lang_lit _ u).2 h1)
        · exact Or.inr ((Regexp.lang_lit _ u).2 h1)
      refine ⟨(v :: L).flatten ++ w :: (mid ++ ['*']), tail, ?_,
        (v :: L).flatten, w :: (mid ++ ['*']), rfl, ?_,
        [w], mid ++ ['*'], rfl, ⟨w, hw, rfl⟩,
        mid, ['*'], rfl, (Regexp.star_dot_iff mid).2 hmid, ?_⟩
      · rw [hs]
        simp [List.append_assoc]
      · refine (Regexp.lang_plus _ _).2 ⟨v, L.flatten, rfl,
          hverb v (hvs v (List.mem_cons_self v L)), ?_⟩
        exact (Regexp.star_flatten_iff _ _).2
          ⟨L, fun u hu => hverb u (hvs u (List.mem_cons_of_mem v hu)), rfl⟩
      · exact (Regexp.lang_plus _ _).2
          ⟨['*'], [], rfl, (Regexp.lang_chr '*' _).2 rfl, Regexp.Star.nil⟩

/-- C1 (as amended): the gate of `handleText` requires confirmation exactly for
the texts made of one or more of the two verbs, one after another, then one of
the five characters space, tab, line feed, form feed, carriage return, then any
run of characters without a line feed, then a `*`, then anything. -/
theorem requiresConfirmation_iff (t : String) :
    requiresConfirmation t = true ↔
      ∃ (vs : List String) (w : Char) (mid tail : String),
        vs ≠ [] ∧ (∀ v ∈ vs, v = "刪除" ∨ v = "刪除作者") ∧
        (w = ' ' ∨ w = '\t' ∨ w = '\n' ∨ w = '\x0c' ∨ w = '\r') ∧
        '\n' ∉ mid.toList ∧
        t = String.join vs ++ String.singleton w ++ mid ++ "*" ++ tail := by
  have hsp : ∀ w : Char, isSpace w = true ↔
      (w = ' ' ∨ w = '\t' ∨ w = '\n' ∨ w = '\x0c' ∨ w = '\r') := by
    intro w
    simp only [isSpace, Bool.or_eq_true, beq_iff_eq]
    tauto
  rw [requiresConfirmation, Regexp.matchPrefix_iff, gatePattern_prefix_iff]
  constructor
  · rintro ⟨vs, w, mid, tail, hne, hvs, hw, hmid, hs⟩
    refine ⟨vs.map String.mk, w, String.mk mid, String.mk tail, ?_, ?_, (hsp w).1 hw, hmid, ?_⟩
    · simpa using hne
    · intro v hv
      obtain ⟨u, hu, huv⟩ := List.mem_map.1 hv
      rcases hvs u hu with h1 | h1
      · left
        rw [← huv, h1]
        rfl
      · right
        rw [← huv, h1]
        rfl
    · apply String.ext
      simp only [String.data_append, String.data_join, String.data_singleton, List.map_map]
      have hid : (String.data ∘ String.mk) = id := rfl
      rw [hid, List.map_id]
      show t.toList = _
      rw [hs]
      simp [List.append_assoc]
  · rintro ⟨vs, w, mid, tail, hne, hvs, hw, hmid, hs⟩
    refine ⟨vs.map String.data, w, mid.data, tail.data, ?_, ?_, (hsp w).2 hw, hmid, ?_⟩
    · simpa using hne
    · intro v hv
      obtain ⟨u, hu, huv⟩ := List.mem_map.1 hv
      rcases hvs u hu with h1 | h1
      · left
        rw [← huv, h1]
        rfl
      · right
        rw [← huv, h1]
        rfl
    · rw [hs]
      show String.data _ = _
      simp [List.append_assoc]

/-- C5: the three sample texts of the gate: a delete with a wildcard is gated,
a delete without a wildcard is not, a delete-by-author with a wildcard is. -/
theorem requiresConfirmation_samples :
    requiresConfirmation "刪除 foo*" = true ∧
    requiresConfirmation "刪除 foo" = false ∧
    requiresConfirmation "刪除作者 bar*" = true := by
  decide


/-! ## The text splitter -/

theorem utf8EncodeChar_length (c : Char) : (utf8EncodeChar c).length = c.utf8Size := by
  have e1 : (c.val ≤ UInt32.ofNatCore 127 (by decide)) ↔ c.toNat ≤ 127 := Iff.rfl
  have e2 : (c.val ≤ UInt32.ofNatCore 2047 (by decide)) ↔ c.toNat ≤ 2047 := Iff.rfl
  have e3 : (c.val ≤ UInt32.ofNatCore 65535 (by decide)) ↔ c.toNat ≤ 65535 := Iff.rfl
  unfold utf8EncodeChar Char.utf8Size
  simp only [e1, e2, e3]
  split_ifs <;> first | rfl | (exfalso; omega)

/-- The number of code units of a text is its size in bytes. -/
theorem utf8_length (s : String) : (utf8 s).length = s.utf8ByteSize := by
  unfold utf8 String.utf8ByteSize
  show (s.data.flatMap utf8EncodeChar).length = String.utf8ByteSize.go s.data
  induction s.data with
  | nil => rfl
  | cons c l ih =>
    rw [List.flatMap_cons, List.length_append, ih, utf8EncodeChar_length, String.utf8ByteSize.go]
    omega

theorem utf8EncodeChar_ne_nil (c : Char) : utf8EncodeChar c ≠ [] := by
  unfold utf8EncodeChar
  simp only
  split_ifs <;> simp

theorem utf8EncodeChar_append_inj (c d : Char) (r s : List Nat)
    (h : utf8EncodeChar c ++ r = utf8EncodeChar d ++ s) : c = d ∧ r = s := by
  have key : c.toNat = d.toNat ∧ r = s := by
    unfold utf8EncodeChar at h
    simp only at h
    split_ifs at h <;>
      simp only [List.cons_append, List.nil_append, List.cons.injEq] at h
    all_goals first
      | (exfalso; omega)
      | (refine ⟨by omega, ?_⟩; simp only [h])
  exact ⟨Char.ext (UInt32.ext key.1), key.2⟩

theorem flatMap_utf8EncodeChar_inj (l1 l2 : List Char)
    (h : l1.flatMap utf8EncodeChar = l2.flatMap utf8EncodeChar) : l1 = l2 := by
  induction l1 generalizing l2 with
  | nil =>
    cases l2 with
    | nil => rfl
    | cons d l2 =>
      simp only [List.flatMap_nil, List.flatMap_cons] at h
      exact absurd (List.append_eq_nil.1 h.symm).1 (utf8EncodeChar_ne_nil d)
  | cons c l1 ih =>
    cases l2 with
    | nil =>
      simp only [List.flatMap_nil, List.flatMap_cons] at h
      exact absurd (List.append_eq_nil.1 h).1 (utf8EncodeChar_ne_nil c)
    | cons d l2 =>
      simp only [List.flatMap_cons] at h
      obtain ⟨h3, h4⟩ := utf8EncodeChar_append_inj c d _ _ h
      rw [h3, ih l2 h4]

/-- The code units determine the text: two texts with the same code units are
equal. -/
theorem utf8_injective (s t : String) (h : utf8 s = utf8 t) : s = t :=
  String.ext (flatMap_utf8EncodeChar_inj s.data t.data h)

/-- The encoder on samples of every length class and at the class borders
agrees with the encoder of the standard library. -/
theorem utf8_samples :
    utf8 "a\n\x7f" = ("a\n\x7f".toList.flatMap String.utf8EncodeChar).map UInt8.toNat ∧
    utf8 "\u0080ß\u07ff" =
      ("\u0080ß\u07ff".toList.flatMap String.utf8EncodeChar).map UInt8.toNat ∧
    utf8 "\u0800刪\uffff" =
      ("\u0800刪\uffff".toList.flatMap String.utf8EncodeChar).map UInt8.toNat ∧
    utf8 "𐀀😀" = ("𐀀😀".toList.flatMap String.utf8EncodeChar).map UInt8.toNat ∧
    utf8 "刪" = [229, 136, 170] ∧ utf8 "😀" = [240, 159, 152, 128] := by
  decide

theorem utf8_cons (c : Char) (l : List Char) :
    utf8 (String.mk (c :: l)) = utf8EncodeChar c ++ utf8 (String.mk l) := by
  simp [utf8, String.toList]

theorem utf8_mk_append (l1 l2 : List Char) :
    utf8 (String.mk (l1 ++ l2)) = utf8 (String.mk l1) ++ utf8 (String.mk l2) := by
  simp [utf8, String.toList]

theorem utf8_replicate_a (n : Nat) :
    utf8 (String.mk (List.replicate n 'a')) = List.replicate n 97 := by
  induction n with
  | zero => rfl
  | succ k ih =>
    rw [List.replicate_succ, utf8_cons, ih, List.replicate_succ]
    rfl

theorem lastIndexOf_none (c : Nat) (l : List Nat) (h : lastIndexOf c l = none) :
    ∀ j : Nat, l[j]? ≠ some c := by
  induction l with
  | nil => simp
  | cons x xs ih =>
    simp only [lastIndexOf] at h
    split at h
    · cases h
    · rename_i hx
      intro j
      cases j with
      | zero =>
        simp only [List.getElem?_cons_zero, ne_eq, Option.some.injEq]
        intro hxc
        simp [hxc] at h
      | succ k =>
        simp only [List.getElem?_cons_succ]
        exact ih hx k

theorem lastIndexOf_some (c : Nat) (l : List Nat) (i : Nat) (h : lastIndexOf c l = some i) :
    i < l.length ∧ l[i]? = some c ∧ ∀ j : Nat, i < j → l[j]? ≠ some c := by
  induction l generalizing i with
  | nil => simp [lastIndexOf] at h
  | cons x xs ih =>
    simp only [lastIndexOf] at h
    split at h
    · rename_i k hk
      simp only [Option.some.injEq] at h
      subst h
      obtain ⟨h1, h2, h3⟩ := ih k hk
      refine ⟨by simp only [List.length_cons]; omega, by simpa using h2, ?_⟩
      intro j hj
      cases j with
      | zero => omega
      | succ j1 =>
        simp only [List.getElem?_cons_succ]
        exact h3 j1 (by omega)
    · rename_i hx
      split at h
      · rename_i hxc
        simp only [Option.some.injEq] at h
        subst h
        refine ⟨by simp, by simpa using hxc, ?_⟩
        intro j hj
        cases j with
        | zero => omega
        | succ j1 =>
          simp only [List.getElem?_cons_succ]
          exact lastIndexOf_none c xs hx j1
      · cases h

theorem lastIndexOf_unique (c : Nat) (l : List Nat) (i : Nat) (hi : l[i]? = some c)
    (hlast : ∀ j : Nat, i < j → l[j]? ≠ some c) : lastIndexOf c l = some i := by
  cases h : lastIndexOf c l with
  | none => exact absurd hi (lastIndexOf_none c l h i)
  | some k =>
    obtain ⟨_, h2, h3⟩ := lastIndexOf_some c l k h
    rcases Nat.lt_trichotomy i k with hlt | heq | hgt
    · exact absurd h2 (hlast k hlt)
    · rw [heq]
    · exact absurd hi (h3 i hgt)

theorem splitChunks_length (limit : Nat) (hl : 0 < limit) (fuel : Nat) (text : List Nat)
    (hf : text.length ≤ fuel) : ∀ c ∈ splitChunks fuel text limit, c.length ≤ limit := by
  induction fuel generalizing text with
  | zero =>
    have : text = [] := List.length_eq_zero.1 (by omega)
    subst this
    simp [splitChunks]
  | succ n ih =>
    intro c hc
    rw [splitChunks] at hc
    split at hc
    · simp at hc
    · split at hc
      · rename_i hlen
        simp only [List.mem_singleton] at hc
        rw [hc]
        exact hlen
      · rename_i hne hlen
        split at hc
        · rename_i i hi
          obtain ⟨h1, _, _⟩ := lastIndexOf_some _ _ i hi
          simp only [List.length_take] at h1
          rcases List.mem_cons.1 hc with h | h
          · rw [h, List.length_take]
            omega
          · exact ih (text.drop (i + 1)) (by rw [List.length_drop]; omega) c h
        · rcases List.mem_cons.1 hc with h | h
          · rw [h, List.length_take]
            omega
          · exact ih (text.drop limit) (by rw [List.length_drop]; omega) c h

theorem splitChunks_fuel (limit : Nat) (hl : 0 < limit) (f1 f2 : Nat) (text : List Nat)
    (h1 : text.length ≤ f1) (h2 : text.length ≤ f2) :
    splitChunks f1 text limit = splitChunks f2 text limit := by
  induction f1 generalizing f2 text with
  | zero =>
    have : text = [] := List.length_eq_zero.1 (by omega)
    subst this
    cases f2 <;> simp [splitChunks]
  | succ n ih =>
    cases f2 with
    | zero =>
      have : text = [] := List.length_eq_zero.1 (by omega)
      subst this
      simp [splitChunks]
    | succ k =>
      rw [splitChunks, splitChunks]
      split
      · rfl
      · split
        · rfl
        · rename_i hne hlen
          split
          · rename_i i hi
            rw [ih k (text.drop (i + 1)) (by rw [List.length_drop]; omega)
              (by rw [List.length_drop]; omega)]
          · rw [ih k (text.drop limit) (by rw [List.length_drop]; omega)
              (by rw [List.length_drop]; omega)]

theorem splitUnits_length (units : List Nat) (limit : Nat) (hl : 0 < limit) :
    ∀ c ∈ splitUnits units limit, c.length ≤ limit :=
  splitChunks_length limit hl units.length units (Nat.le_refl _)

theorem splitUnits_short (units : List Nat) (limit : Nat) (hne : units ≠ [])
    (hlen : units.length ≤ limit) : splitUnits units limit = [units] := by
  cases units with
  | nil => exact absurd rfl hne
  | cons x xs =>
    unfold splitUnits
    rw [List.length_cons, splitChunks]
    simp only [List.isEmpty_cons, Bool.false_eq_true, if_false]
    rw [if_pos hlen]

theorem splitUnits_cut (units : List Nat) (limit : Nat) (hl : 0 < limit)
    (hlen : limit < units.length) :
    (∀ i, lastIndexOf lineBreak (units.take (limit + 1)) = some i →
      splitUnits units limit = units.take i :: splitUnits (units.drop (i + 1)) limit) ∧
    (lastIndexOf lineBreak (units.take (limit + 1)) = none →
      splitUnits units limit = units.take limit :: splitUnits (units.drop limit) limit) := by
  have hne : units.isEmpty = false := by
    cases units with
    | nil => simp at hlen
    | cons _ _ => rfl
  have hstep : units.length = (units.length - 1) + 1 := by omega
  constructor
  · intro i hi
    unfold splitUnits
    rw [hstep, splitChunks]
    simp only [hne, Bool.false_eq_true, if_false, Nat.not_le.2 hlen, hi]
    congr 1
    apply splitChunks_fuel limit hl
    · rw [List.length_drop]
      omega
    · exact Nat.le_refl _
  · intro hi
    unfold splitUnits
    rw [hstep, splitChunks]
    simp only [hne, Bool.false_eq_true, if_false, Nat.not_le.2 hlen, hi]
    congr 1
    apply splitChunks_fuel limit hl
    · rw [List.length_drop]
      omega
    · exact Nat.le_refl _

/-! ## The message sender and the handlers -/

theorem sendTextMessage_attempt (env : Env) (chatID : Int) (text : List Nat) (w : World) :
    (sendTextMessage env chatID text w).sent = w.sent ++
      [{ ChatID := chatID, Text := text, DisableWebPagePreview := true, ReplyMarkup := .none }] := by
  simp only [sendTextMessage, botSend]
  split <;> rename_i h <;> simp only [Prod.mk.injEq] at h <;> rw [← h.2] <;> rfl

theorem sendTextMessage_others (env : Env) (chatID : Int) (text : List Nat) (w : World) :
    (sendTextMessage env chatID text w).calls = w.calls ∧
    (sendTextMessage env chatID text w).follows = w.follows := by
  simp only [sendTextMessage, botSend]
  split <;> rename_i h <;> simp only [Prod.mk.injEq] at h <;> rw [← h.2] <;> exact ⟨rfl, rfl⟩

theorem foldl_sendTextMessage (env : Env) (chatID : Int) (chunks : List (List Nat))
    (w : World) :
    (chunks.foldl (fun w1 msg => sendTextMessage env chatID msg w1) w).sent = w.sent ++
      chunks.map (fun c =>
        { ChatID := chatID, Text := c, DisableWebPagePreview := true, ReplyMarkup := .none }) ∧
    (chunks.foldl (fun w1 msg => sendTextMessage env chatID msg w1) w).calls = w.calls ∧
    (chunks.foldl (fun w1 msg => sendTextMessage env chatID msg w1) w).follows = w.follows := by
  induction chunks generalizing w with
  | nil => simp
  | cons c cs ih =>
    simp only [List.foldl_cons, List.map_cons]
    obtain ⟨h1, h2, h3⟩ := ih (sendTextMessage env chatID c w)
    rw [h1, h2, h3, sendTextMessage_attempt, (sendTextMessage_others env chatID c w).1,
      (sendTextMessage_others env chatID c w).2]
    simp

theorem SendTextMessage_calls (env : Env) (chatID : Int) (text : String) (w : World) :
    (SendTextMessage env chatID text w).calls = w.calls :=
  (foldl_sendTextMessage env chatID _ w).2.1

theorem SendTextMessage_follows (env : Env) (chatID : Int) (text : String) (w : World) :
    (SendTextMessage env chatID text w).follows = w.follows :=
  (foldl_sendTextMessage env chatID _ w).2.2

theorem SendTextMessage_attempts (env : Env) (chatID : Int) (text : String) (w : World) :
    (SendTextMessage env chatID text w).sent = w.sent ++
      (SplitTextByLineBreak text maxCharacters).map (fun c =>
        { ChatID := chatID, Text := c, DisableWebPagePreview := true, ReplyMarkup := .none }) :=
  (foldl_sendTextMessage env chatID _ w).1

theorem SendTextMessage_one_chunk (env : Env) (chatID : Int) (text : String) (w : World)
    (h : SplitTextByLineBreak text maxCharacters = [utf8 text]) :
    (SendTextMessage env chatID text w).sent = w.sent ++
      [{ ChatID := chatID, Text := utf8 text, DisableWebPagePreview := true,
         ReplyMarkup := .none }] := by
  rw [SendTextMessage_attempts, h]
  rfl

/-- C10: whatever the transport answers, `SendTextMessage` attempts one send per
chunk of the split text, in the order of the chunks, each to the given chat with
link preview disabled; so two transports with different failures see the same
sequence of attempts. The function returns the world only, never an error. -/
theorem SendTextMessage_sent (env : Env) (chatID : Int) (text : String) (w : World) :
    (SendTextMessage env chatID text w).sent = w.sent ++
      (SplitTextByLineBreak text maxCharacters).map (fun c =>
        { ChatID := chatID, Text := c, DisableWebPagePreview := true, ReplyMarkup := .none }) ∧
    ∀ env2 : Env,
      (SendTextMessage env2 chatID text w).sent = (SendTextMessage env chatID text w).sent := by
  refine ⟨(foldl_sendTextMessage env chatID _ w).1, fun env2 => ?_⟩
  unfold SendTextMessage
  rw [(foldl_sendTextMessage env chatID _ w).1, (foldl_sendTextMessage env2 chatID _ w).1]

/-- C4: a callback answer from sender `s` whose message is in chat `d`: with
payload "CANCEL" the text handed to `SendTextMessage` is "取消", the Executor
is not called, and the one send is "取消" to chat `d`; with any other payload
the Executor is called once, with the payload unchanged, the decimal sender ID
and `true`, what it returns is handed to `SendTextMessage` for chat `d`, and
the sends are the chunks of that returned text, in order, to chat `d`. -/
theorem handleCallbackQuery_spec (env : Env) (w : World) (u : Update) (cq : CallbackQuery)
    (m : Message) (s d : Int) (hu : u.CallbackQuery = some cq) (hF : cq.From = some ⟨s⟩)
    (hM : cq.Message = some m) (hC : m.Chat = some ⟨d⟩) :
    (cq.Data = "CANCEL" →
      handleCallbackQuery env u w = .ok (SendTextMessage env d "取消" w) ∧
      (SendTextMessage env d "取消" w).calls = w.calls ∧
      (SendTextMessage env d "取消" w).sent = w.sent ++
        [{ ChatID := d, Text := utf8 "取消", DisableWebPagePreview := true,
           ReplyMarkup := .none }]) ∧
    (cq.Data ≠ "CANCEL" →
      handleCallbackQuery env u w = .ok (SendTextMessage env d
        (env.HandleCommand w cq.Data (Itoa s) true)
        { w with calls := w.calls ++ [⟨cq.Data, Itoa s, true⟩] }) ∧
      (SendTextMessage env d (env.HandleCommand w cq.Data (Itoa s) true)
        { w with calls := w.calls ++ [⟨cq.Data, Itoa s, true⟩] }).calls =
        w.calls ++ [⟨cq.Data, Itoa s, true⟩] ∧
      (SendTextMessage env d (env.HandleCommand w cq.Data (Itoa s) true)
        { w with calls := w.calls ++ [⟨cq.Data, Itoa s, true⟩] }).sent =
        w.sent ++
          (SplitTextByLineBreak (env.HandleCommand w cq.Data (Itoa s) true) maxCharacters).map
            (fun c =>
              { ChatID := d, Text := c, DisableWebPagePreview := true,
                ReplyMarkup := .none })) := by
  constructor
  · intro h
    refine ⟨?_, SendTextMessage_calls env d _ w,
      SendTextMessage_one_chunk env d "取消" w (by decide)⟩
    simp [handleCallbackQuery, hu, hF, hM, hC, deref, h, bind, Except.bind, pure, Except.pure]
  · intro h
    refine ⟨?_, SendTextMessage_calls env d _ _, SendTextMessage_attempts env d _ _⟩
    simp [handleCallbackQuery, hu, hF, hM, hC, deref, h, bind, Except.bind, pure, Except.pure,
      callHandleCommand]


theorem sendConfirmation_effects (env : Env) (chatID : Int) (cmd : String) (w : World) :
    (sendConfirmation env chatID cmd w).sent = w.sent ++
      [{ ChatID := chatID, Text := utf8 ("確定" ++ cmd ++ "？"), DisableWebPagePreview := false,
         ReplyMarkup := .inlineKeyboard [[⟨"是", cmd⟩, ⟨"否", "CANCEL"⟩]] }] ∧
    (sendConfirmation env chatID cmd w).calls = w.calls := by
  simp only [sendConfirmation, botSend]
  split <;> rename_i h <;> simp only [Prod.mk.injEq] at h <;> rw [← h.2] <;> exact ⟨rfl, rfl⟩

theorem showReplyKeyboard_effects (env : Env) (chatID : Int) (w : World) :
    (showReplyKeyboard env chatID w).sent = w.sent ++
      [{ ChatID := chatID, Text := utf8 "顯示小鍵盤", DisableWebPagePreview := false,
         ReplyMarkup := .replyKeyboard [["清單", "推文清單", "排行", "指令"]] }] ∧
    (showReplyKeyboard env chatID w).calls = w.calls := by
  simp only [showReplyKeyboard, botSend]
  split <;> rename_i h <;> simp only [Prod.mk.injEq] at h <;> rw [← h.2] <;> exact ⟨rfl, rfl⟩

theorem hideReplyKeyboard_effects (env : Env) (chatID : Int) (w : World) :
    (hideReplyKeyboard env chatID w).sent = w.sent ++
      [{ ChatID := chatID, Text := utf8 "隱藏小鍵盤", DisableWebPagePreview := false,
         ReplyMarkup := .removeKeyboard true }] ∧
    (hideReplyKeyboard env chatID w).calls = w.calls := by
  simp only [hideReplyKeyboard, botSend]
  split <;> rename_i h <;> simp only [Prod.mk.injEq] at h <;> rw [← h.2] <;> exact ⟨rfl, rfl⟩

theorem handleText_of_gated (env : Env) (w : World) (u : Update) (m : Message) (s d : Int)
    (hu : u.Message = some m) (hF : m.From = some ⟨s⟩) (hC : m.Chat = some ⟨d⟩)
    (hg : requiresConfirmation m.Text = true) :
    handleText env u w = .ok (sendConfirmation env d m.Text
      (w.log ⟨"info", "Processing text command", [("userID", Itoa s), ("text", m.Text)]⟩)) := by
  simp [handleText, hu, hF, hC, deref, hg, bind, Except.bind, pure, Except.pure]

theorem handleText_of_ungated (env : Env) (w : World) (u : Update) (m : Message) (s d : Int)
    (hu : u.Message = some m) (hF : m.From = some ⟨s⟩) (hC : m.Chat = some ⟨d⟩)
    (hg : requiresConfirmation m.Text = false) :
    ∃ w1 : World, handleText env u w = .ok w1 ∧
      w1.calls = w.calls ++ [⟨m.Text, Itoa s, true⟩] := by
  have h : handleText env u w = .ok (SendTextMessage env d
      (callHandleCommand env m.Text (Itoa s) true (w.log
        ⟨"info", "Processing text command", [("userID", Itoa s), ("text", m.Text)]⟩)).1
      ((callHandleCommand env m.Text (Itoa s) true (w.log
        ⟨"info", "Processing text command", [("userID", Itoa s), ("text", m.Text)]⟩)).2.log
        ⟨"info", "Command response", [("response",
          (callHandleCommand env m.Text (Itoa s) true (w.log
            ⟨"info", "Processing text command",
              [("userID", Itoa s), ("text", m.Text)]⟩)).1)]⟩)) := by
    simp [handleText, hu, hF, hC, deref, hg, bind, Except.bind, pure, Except.pure]
  refine ⟨_, h, ?_⟩
  rw [SendTextMessage_calls]
  rfl

/-- C2: a free text from chat `d` that the gate matches: `handleText` makes no
Executor call and no plain text send; it sends exactly one message, to chat `d`,
with the prompt "確定" ++ text ++ "？" and an inline keyboard of one row whose
button "是" carries the text unchanged and whose button "否" carries "CANCEL". -/
theorem handleText_gated (env : Env) (w : World) (u : Update) (m : Message) (s d : Int)
    (hu : u.Message = some m) (hF : m.From = some ⟨s⟩) (hC : m.Chat = some ⟨d⟩)
    (hg : requiresConfirmation m.Text = true) :
    ∃ w1 : World, handleText env u w = .ok w1 ∧ w1.calls = w.calls ∧
      w1.sent = w.sent ++
        [{ ChatID := d, Text := utf8 ("確定" ++ m.Text ++ "？"), DisableWebPagePreview := false,
           ReplyMarkup := .inlineKeyboard [[⟨"是", m.Text⟩, ⟨"否", "CANCEL"⟩]] }] := by
  refine ⟨_, handleText_of_gated env w u m s d hu hF hC hg, ?_, ?_⟩
  · exact (sendConfirmation_effects env d m.Text _).2
  · exact (sendConfirmation_effects env d m.Text _).1


/-- C3: for a text `t` that the gate matches and a sender `s`: `t` is not
"CANCEL"; the "是" button that `sendConfirmation` renders for `t` carries `t`;
a callback answer from `s` with that payload makes exactly the Executor call
`HandleCommand(t, s, true)`; and that is the call `handleText` makes for any
text from `s` on which the gate does not intervene. -/
theorem confirmation_roundtrip (env : Env) (t : String) (s : Int)
    (hg : requiresConfirmation t = true) :
    t ≠ "CANCEL" ∧
    (∀ (d : Int) (w : World), ∃ msg : MessageConfig,
      (sendConfirmation env d t w).sent = w.sent ++ [msg] ∧
      msg.ReplyMarkup = .inlineKeyboard [[⟨"是", t⟩, ⟨"否", "CANCEL"⟩]]) ∧
    (∀ (w : World) (u : Update) (cq : CallbackQuery) (m : Message) (d : Int),
      u.CallbackQuery = some cq → cq.From = some ⟨s⟩ → cq.Message = some m →
      m.Chat = some ⟨d⟩ → cq.Data = t →
      ∃ w1 : World, handleCallbackQuery env u w = .ok w1 ∧
        w1.calls = w.calls ++ [⟨t, Itoa s, true⟩]) ∧
    (∀ (w : World) (u : Update) (m : Message) (d : Int),
      u.Message = some m → m.From = some ⟨s⟩ → m.Chat = some ⟨d⟩ →
      requiresConfirmation m.Text = false →
      ∃ w1 : World, handleText env u w = .ok w1 ∧
        w1.calls = w.calls ++ [⟨m.Text, Itoa s, true⟩]) := by
  have hne : t ≠ "CANCEL" := by
    intro h
    rw [h] at hg
    exact absurd hg (by decide)
  refine ⟨hne, ?_, ?_, ?_⟩
  · intro d w
    exact ⟨_, (sendConfirmation_effects env d t w).1, rfl⟩
  · intro w u cq m d hu hF hM hC hD
    have hD2 : cq.Data ≠ "CANCEL" := by
      rw [hD]
      exact hne
    refine ⟨SendTextMessage env d (env.HandleCommand w cq.Data (Itoa s) true)
      { w with calls := w.calls ++ [⟨cq.Data, Itoa s, true⟩] }, ?_, ?_⟩
    · simp [handleCallbackQuery, hu, hF, hM, hC, deref, hD2, bind, Except.bind, pure,
        Except.pure, callHandleCommand]
    · rw [SendTextMessage_calls, hD]
  · intro w u m d hu hF hC hgm
    exact handleText_of_ungated env w u m s d hu hF hC hgm

/-- C7: a command with name `n` and arguments `a` from sender `s` in chat `d`:
"add" and "del" make the one Executor call `HandleCommand(n ++ " " ++ a, s, true)`;
"help", "list" and "ranking" make the one call `HandleCommand(n, s, true)`; every
other name makes no Executor call; "showkeyboard" and "hidekeyboard" send only
the keyboard message, no text response; and every name outside the eight known
ones gets the reply "I don't know the command": that text is handed to
`SendTextMessage` and is the one message sent, to chat `d`. -/
theorem handleCommand_spec (env : Env) (w : World) (u : Update) (m : Message) (s d : Int)
    (hu : u.Message = some m) (hF : m.From = some ⟨s⟩) (hC : m.Chat = some ⟨d⟩) :
    ((m.Command = "add" ∨ m.Command = "del") →
      ∃ w1 : World, handleCommand env u w = .ok w1 ∧
        w1.calls = w.calls ++ [⟨m.Command ++ " " ++ m.CommandArguments, Itoa s, true⟩]) ∧
    ((m.Command = "help" ∨ m.Command = "list" ∨ m.Command = "ranking") →
      ∃ w1 : World, handleCommand env u w = .ok w1 ∧
        w1.calls = w.calls ++ [⟨m.Command, Itoa s, true⟩]) ∧
    ((m.Command ≠ "add" ∧ m.Command ≠ "del" ∧ m.Command ≠ "help" ∧ m.Command ≠ "list" ∧
        m.Command ≠ "ranking") →
      ∃ w1 : World, handleCommand env u w = .ok w1 ∧ w1.calls = w.calls) ∧
    (m.Command = "showkeyboard" →
      ∃ w1 : World, handleCommand env u w = .ok w1 ∧ w1.sent = w.sent ++
        [{ ChatID := d, Text := utf8 "顯示小鍵盤", DisableWebPagePreview := false,
           ReplyMarkup := .replyKeyboard [["清單", "推文清單", "排行", "指令"]] }]) ∧
    (m.Command = "hidekeyboard" →
      ∃ w1 : World, handleCommand env u w = .ok w1 ∧ w1.sent = w.sent ++
        [{ ChatID := d, Text := utf8 "隱藏小鍵盤", DisableWebPagePreview := false,
           ReplyMarkup := .removeKeyboard true }]) ∧
    ((m.Command ≠ "add" ∧ m.Command ≠ "del" ∧ m.Command ≠ "start" ∧ m.Command ≠ "help" ∧
        m.Command ≠ "list" ∧ m.Command ≠ "ranking" ∧ m.Command ≠ "showkeyboard" ∧
        m.Command ≠ "hidekeyboard") →
      handleCommand env u w = .ok (SendTextMessage env d "I don't know the command" w) ∧
      (SendTextMessage env d "I don't know the command" w).sent = w.sent ++
        [{ ChatID := d, Text := utf8 "I don't know the command", DisableWebPagePreview := true,
           ReplyMarkup := .none }]) := by
  have hstart : m.Command = "start" → handleCommand env u w = .ok (SendTextMessage env d
      "歡迎使用 Ptt Alertor\n輸入「指令」查看相關功能。" (callHandleTelegramFollow (Itoa s) d w)) := by
    intro h
    simp [handleCommand, hu, hF, hC, deref, h, bind, Except.bind, pure, Except.pure]
  have hshow : m.Command = "showkeyboard" →
      handleCommand env u w = .ok (showReplyKeyboard env d w) := by
    intro h
    simp [handleCommand, hu, hF, hC, deref, h, bind, Except.bind, pure, Except.pure]
  have hhide : m.Command = "hidekeyboard" →
      handleCommand env u w = .ok (hideReplyKeyboard env d w) := by
    intro h
    simp [handleCommand, hu, hF, hC, deref, h, bind, Except.bind, pure, Except.pure]
  have hother : (m.Command ≠ "add" ∧ m.Command ≠ "del" ∧ m.Command ≠ "start" ∧
      m.Command ≠ "help" ∧ m.Command ≠ "list" ∧ m.Command ≠ "ranking" ∧
      m.Command ≠ "showkeyboard" ∧ m.Command ≠ "hidekeyboard") →
      handleCommand env u w = .ok (SendTextMessage env d "I don't know the command" w) := by
    rintro ⟨h1, h2, h3, h4, h5, h6, h7, h8⟩
    simp [handleCommand, hu, hF, hC, deref, h1, h2, h3, h4, h5, h6, h7, h8, bind, Except.bind,
      pure, Except.pure]
  refine ⟨?_, ?_, ?_, ?_, ?_, fun h =>
    ⟨hother h, SendTextMessage_one_chunk env d "I don't know the command" w (by decide)⟩⟩
  · intro h
    refine ⟨SendTextMessage env d
      (env.HandleCommand w (m.Command ++ " " ++ m.CommandArguments) (Itoa s) true)
      { w with calls := w.calls ++
          [⟨m.Command ++ " " ++ m.CommandArguments, Itoa s, true⟩] }, ?_, ?_⟩
    · simp [handleCommand, hu, hF, hC, deref, h, bind, Except.bind, pure, Except.pure,
        callHandleCommand]
    · rw [SendTextMessage_calls]
  · intro h
    refine ⟨SendTextMessage env d (env.HandleCommand w m.Command (Itoa s) true)
      { w with calls := w.calls ++ [⟨m.Command, Itoa s, true⟩] }, ?_, ?_⟩
    · rcases h with h | h | h <;>
        simp [handleCommand, hu, hF, hC, deref, h, bind, Except.bind, pure, Except.pure,
          callHandleCommand]
    · rw [SendTextMessage_calls]
  · rintro ⟨h1, h2, h4, h5, h6⟩
    by_cases h3 : m.Command = "start"
    · refine ⟨_, hstart h3, ?_⟩
      rw [SendTextMessage_calls]
      rfl
    · by_cases h7 : m.Command = "showkeyboard"
      · exact ⟨_, hshow h7, (showReplyKeyboard_effects env d w).2⟩
      · by_cases h8 : m.Command = "hidekeyboard"
        · exact ⟨_, hhide h8, (hideReplyKeyboard_effects env d w).2⟩
        · exact ⟨_, hother ⟨h1, h2, h3, h4, h5, h6, h7, h8⟩, SendTextMessage_calls env d _ w⟩
  · intro h
    exact ⟨_, hshow h, (showReplyKeyboard_effects env d w).1⟩
  · intro h
    exact ⟨_, hhide h, (hideReplyKeyboard_effects env d w).1⟩

/-- C8: a command "start" from sender `s` in chat `d`: the follow registry is
called exactly once, with the decimal string of `s` and with `d`; the Executor
is not called; and the text handed to `SendTextMessage` for chat `d` is the
fixed welcome text. -/
theorem handleCommand_start (env : Env) (w : World) (u : Update) (m : Message) (s d : Int)
    (hu : u.Message = some m) (hF : m.From = some ⟨s⟩) (hC : m.Chat = some ⟨d⟩)
    (hn : m.Command = "start") :
    ∃ w1 : World,
      handleCommand env u w = .ok (SendTextMessage env d
        "歡迎使用 Ptt Alertor\n輸入「指令」查看相關功能。" w1) ∧
      w1 = { w with follows := w.follows ++ [⟨Itoa s, d⟩] } ∧
      (SendTextMessage env d "歡迎使用 Ptt Alertor\n輸入「指令」查看相關功能。" w1).follows =
        w.follows ++ [⟨Itoa s, d⟩] ∧
      (SendTextMessage env d "歡迎使用 Ptt Alertor\n輸入「指令」查看相關功能。" w1).calls =
        w.calls := by
  refine ⟨callHandleTelegramFollow (Itoa s) d w, ?_, rfl, ?_, ?_⟩
  · simp [handleCommand, hu, hF, hC, deref, hn, bind, Except.bind, pure, Except.pure]
  · rw [SendTextMessage_follows]
    rfl
  · rw [SendTextMessage_calls]
    rfl

/-- C6 (the code at the failing inputs): a message update without a sender, and
a callback update without a message, are not dropped; `processUpdate` stops on a
nil dereference. -/
theorem processUpdate_nil_dereference (env : Env) (w : World) :
    processUpdate env
      { CallbackQuery := none,
        Message := some { From := none, Chat := some ⟨1⟩, Text := "hi", IsCommand := false,
                          Command := "", CommandArguments := "" } } w
      = .error .nilDereference ∧
    processUpdate env
      { CallbackQuery := some { From := some ⟨1⟩, Message := none, Data := "CANCEL" },
        Message := none } w
      = .error .nilDereference := by
  constructor <;> rfl


/-- C9: the chunks of `SplitTextByLineBreak text 4096` are the chunks of the
text's code units; every chunk, hence the text of every message that
`SendTextMessage` hands to the transport, has at most 4096 code units; and a
sequence of more than 4096 code units (the text, or what is left of it after a
cut) is cut at its last line break among the positions 0 to 4096 when there is
one (the break is dropped, the rest is split the same way), and hard after 4096
code units when there is none. -/
theorem SplitTextByLineBreak_chunks (text : String) :
    SplitTextByLineBreak text maxCharacters = splitUnits (utf8 text) 4096 ∧
    (∀ c ∈ SplitTextByLineBreak text maxCharacters, c.length ≤ 4096) ∧
    (∀ (env : Env) (chatID : Int) (w : World),
      ∀ msg ∈ (SendTextMessage env chatID text w).sent.drop w.sent.length,
        msg.Text.length ≤ 4096) ∧
    (∀ units : List Nat, 4096 < units.length →
      (∀ i : Nat, i ≤ 4096 → units[i]? = some lineBreak →
        (∀ j : Nat, i < j → j ≤ 4096 → units[j]? ≠ some lineBreak) →
        splitUnits units 4096 = units.take i :: splitUnits (units.drop (i + 1)) 4096) ∧
      ((∀ i : Nat, i ≤ 4096 → units[i]? ≠ some lineBreak) →
        splitUnits units 4096 = units.take 4096 :: splitUnits (units.drop 4096) 4096)) := by
  have hchunks : ∀ c ∈ SplitTextByLineBreak text maxCharacters, c.length ≤ 4096 :=
    splitUnits_length (utf8 text) 4096 (by decide)
  refine ⟨rfl, hchunks, ?_, ?_⟩
  · intro env chatID w msg hmsg
    rw [SendTextMessage_attempts, List.drop_left] at hmsg
    obtain ⟨c, hc, hcm⟩ := List.mem_map.1 hmsg
    rw [← hcm]
    exact hchunks c hc
  · intro units hlen
    obtain ⟨hsome, hnone⟩ := splitUnits_cut units 4096 (by decide) hlen
    constructor
    · intro i hi hbreak hlast
      apply hsome
      apply lastIndexOf_unique
      · rw [List.getElem?_take_of_lt (by omega)]
        exact hbreak
      · intro j hj
        by_cases hj2 : j ≤ 4096
        · rw [List.getElem?_take_of_lt (by omega)]
          exact hlast j hj hj2
        · rw [List.getElem?_take_eq_none (by omega)]
          simp
    · intro hno
      apply hnone
      cases h : lastIndexOf lineBreak (units.take (4096 + 1)) with
      | none => rfl
      | some k =>
        obtain ⟨h1, h2, _⟩ := lastIndexOf_some _ _ k h
        simp only [List.length_take] at h1
        rw [List.getElem?_take_of_lt (by omega)] at h2
        exact absurd h2 (hno k (by omega))

theorem utf8_sampleLongLine : utf8 sampleLongLine = List.replicate 5000 97 :=
  utf8_replicate_a 5000

theorem utf8_sampleTwoLines :
    utf8 sampleTwoLines = List.replicate 100 97 ++ 10 :: List.replicate 5000 97 := by
  have h : sampleTwoLines = String.mk (List.replicate 100 'a' ++ ('\n' :: List.replicate 5000 'a')) :=
    rfl
  rw [h, utf8_mk_append, utf8_cons, utf8_replicate_a, utf8_replicate_a]
  rfl

/-- C9, concrete instances: a text of 5000 letters without a line break is cut
hard after 4096 code units; a text of 100 letters, a line break and 5000 letters
is cut at the line break, which is dropped. -/
theorem SplitTextByLineBreak_chunks_witness :
    (4096 < (utf8 sampleLongLine).length ∧
      (∀ i : Nat, i ≤ 4096 → (utf8 sampleLongLine)[i]? ≠ some lineBreak) ∧
      SplitTextByLineBreak sampleLongLine maxCharacters =
        (utf8 sampleLongLine).take 4096 :: splitUnits ((utf8 sampleLongLine).drop 4096) 4096) ∧
    (4096 < (utf8 sampleTwoLines).length ∧
      (utf8 sampleTwoLines)[100]? = some lineBreak ∧
      (∀ j : Nat, 100 < j → j ≤ 4096 → (utf8 sampleTwoLines)[j]? ≠ some lineBreak) ∧
      SplitTextByLineBreak sampleTwoLines maxCharacters =
        (utf8 sampleTwoLines).take 100 :: splitUnits ((utf8 sampleTwoLines).drop (100 + 1)) 4096) :=
  have a1 : 4096 < (utf8 sampleLongLine).length := by
    rw [utf8_sampleLongLine, List.length_replicate]
    omega
  have a2 : ∀ i : Nat, i ≤ 4096 → (utf8 sampleLongLine)[i]? ≠ some lineBreak := by
    intro i hi
    rw [utf8_sampleLongLine, List.getElem?_replicate_of_lt (by omega)]
    decide
  have b1 : 4096 < (utf8 sampleTwoLines).length := by
    rw [utf8_sampleTwoLines, List.length_append, List.length_cons, List.length_replicate,
      List.length_replicate]
    omega
  have b2 : (utf8 sampleTwoLines)[100]? = some lineBreak := by
    rw [utf8_sampleTwoLines, List.getElem?_append_right (by rw [List.length_replicate]),
      List.length_replicate, Nat.sub_self, List.getElem?_cons_zero]
    rfl
  have b3 : ∀ j : Nat, 100 < j → j ≤ 4096 → (utf8 sampleTwoLines)[j]? ≠ some lineBreak := by
    intro j hj hj2
    obtain ⟨k, hk⟩ : ∃ k, j = 100 + (k + 1) := ⟨j - 101, by omega⟩
    rw [utf8_sampleTwoLines, List.getElem?_append_right (by rw [List.length_replicate]; omega),
      List.length_replicate, hk, Nat.add_sub_cancel_left, List.getElem?_cons_succ,
      List.getElem?_replicate_of_lt (by omega)]
    decide
  ⟨⟨a1, a2, ((SplitTextByLineBreak_chunks sampleLongLine).2.2.2 (utf8 sampleLongLine) a1).2 a2⟩,
   ⟨b1, b2, b3,
    ((SplitTextByLineBreak_chunks sampleTwoLines).2.2.2 (utf8 sampleTwoLines) b1).1 100
      (by omega) b2 b3⟩⟩

/-- The splitter on small samples, with limit 4: cuts at line breaks, a hard cut
inside a long line, a break right at the limit, the empty text, and a hard cut
that falls inside a character of three code units. -/
theorem SplitTextByLineBreak_samples :
    SplitTextByLineBreak "ab\ncd\nefgh" 4 = [utf8 "ab", utf8 "cd", utf8 "efgh"] ∧
    SplitTextByLineBreak "ab\ncdefgh" 4 = [utf8 "ab", utf8 "cdef", utf8 "gh"] ∧
    SplitTextByLineBreak "abcd\nefgh" 4 = [utf8 "abcd", utf8 "efgh"] ∧
    SplitTextByLineBreak "abcd" 4 = [utf8 "abcd"] ∧
    SplitTextByLineBreak "" 4 = [] ∧
    SplitTextByLineBreak "刪除" 4 = [[229, 136, 170, 233], [153, 164]] := by
  decide

/-- C1 (as stated, refuted): a text with one verb, a space and a `*` on a later
line has the stated form but is not gated; a text with the verb twice is gated
but has not the stated form. -/
theorem requiresConfirmation_not_singleVerbForm :
    (requiresConfirmation "刪除 a\n*" = false ∧ SingleVerbForm "刪除 a\n*") ∧
    (requiresConfirmation "刪除刪除 a*" = true ∧ ¬ SingleVerbForm "刪除刪除 a*") := by
  refine ⟨⟨by decide, "刪除", ' ', "a\n*", Or.inl rfl, by decide, by decide, by decide⟩,
    by decide, ?_⟩
  rintro ⟨verb, w, rest, hv, hw, _, ht⟩
  have hd := congrArg String.data ht
  simp only [String.data_append, String.data_singleton] at hd
  rcases hv with hv | hv
  · rw [hv] at hd
    change ['刪', '除', '刪', '除', ' ', 'a', '*'] = ['刪', '除'] ++ [w] ++ rest.data at hd
    simp only [List.cons_append, List.nil_append, List.cons.injEq, true_and] at hd
    rw [← hd.1] at hw
    exact absurd hw (by decide)
  · rw [hv] at hd
    change ['刪', '除', '刪', '除', ' ', 'a', '*'] = ['刪', '除', '作', '者'] ++ [w] ++ rest.data at hd
    simp only [List.cons_append, List.nil_append, List.cons.injEq, true_and] at hd
    exact absurd hd.1 (by decide)

/-- C2, a concrete instance: the text "刪除 A*" sent to chat 7. -/
theorem handleText_gated_witness :
    requiresConfirmation "刪除 A*" = true ∧
    ∃ w1 : World,
      handleText sampleEnv ⟨none, some (sampleMessage 7 "刪除 A*" false "" "")⟩ World.empty
        = .ok w1 ∧
      w1.calls = [] ∧
      w1.sent = [{ ChatID := 7, Text := utf8 "確定刪除 A*？", DisableWebPagePreview := false,
                   ReplyMarkup := .inlineKeyboard [[⟨"是", "刪除 A*"⟩, ⟨"否", "CANCEL"⟩]] }] :=
  ⟨by decide,
    handleText_gated sampleEnv World.empty ⟨none, some (sampleMessage 7 "刪除 A*" false "" "")⟩
      (sampleMessage 7 "刪除 A*" false "" "") 42 7 rfl rfl rfl (by decide)⟩

/-- C3, a concrete instance: the gated text "刪除 A*" and sender 42. -/
theorem confirmation_roundtrip_witness :
    requiresConfirmation "刪除 A*" = true ∧ "刪除 A*" ≠ "CANCEL" ∧
    ∃ w1 : World,
      handleCallbackQuery sampleEnv
        ⟨some ⟨some ⟨42⟩, some (sampleMessage 7 "" false "" ""), "刪除 A*"⟩, none⟩ World.empty
        = .ok w1 ∧
      w1.calls = [⟨"刪除 A*", "42", true⟩] :=
  ⟨by decide, (confirmation_roundtrip sampleEnv "刪除 A*" 42 (by decide)).1,
    (confirmation_roundtrip sampleEnv "刪除 A*" 42 (by decide)).2.2.1 World.empty
      ⟨some ⟨some ⟨42⟩, some (sampleMessage 7 "" false "" ""), "刪除 A*"⟩, none⟩
      ⟨some ⟨42⟩, some (sampleMessage 7 "" false "" ""), "刪除 A*"⟩
      (sampleMessage 7 "" false "" "") 7 rfl rfl rfl rfl rfl⟩

/-- C4, concrete instances: the payloads "CANCEL" and "list" from sender 42 in
chat 7. -/
theorem handleCallbackQuery_spec_witness :
    (handleCallbackQuery sampleEnv
        ⟨some ⟨some ⟨42⟩, some (sampleMessage 7 "" false "" ""), "CANCEL"⟩, none⟩ World.empty
      = .ok (SendTextMessage sampleEnv 7 "取消" World.empty) ∧
      (SendTextMessage sampleEnv 7 "取消" World.empty).calls = [] ∧
      (SendTextMessage sampleEnv 7 "取消" World.empty).sent =
        [{ ChatID := 7, Text := utf8 "取消", DisableWebPagePreview := true,
           ReplyMarkup := .none }]) ∧
    (handleCallbackQuery sampleEnv
        ⟨some ⟨some ⟨42⟩, some (sampleMessage 7 "" false "" ""), "list"⟩, none⟩ World.empty
      = .ok (SendTextMessage sampleEnv 7 "ok list"
          { World.empty with calls := [⟨"list", "42", true⟩] }) ∧
      (SendTextMessage sampleEnv 7 "ok list"
          { World.empty with calls := [⟨"list", "42", true⟩] }).calls =
        [⟨"list", "42", true⟩] ∧
      (SendTextMessage sampleEnv 7 "ok list"
          { World.empty with calls := [⟨"list", "42", true⟩] }).sent =
        [{ ChatID := 7, Text := utf8 "ok list", DisableWebPagePreview := true,
           ReplyMarkup := .none }]) :=
  ⟨(handleCallbackQuery_spec sampleEnv World.empty
      ⟨some ⟨some ⟨42⟩, some (sampleMessage 7 "" false "" ""), "CANCEL"⟩, none⟩
      ⟨some ⟨42⟩, some (sampleMessage 7 "" false "" ""), "CANCEL"⟩
      (sampleMessage 7 "" false "" "") 42 7 rfl rfl rfl rfl).1 rfl,
   (handleCallbackQuery_spec sampleEnv World.empty
      ⟨some ⟨some ⟨42⟩, some (sampleMessage 7 "" false "" ""), "list"⟩, none⟩
      ⟨some ⟨42⟩, some (sampleMessage 7 "" false "" ""), "list"⟩
      (sampleMessage 7 "" false "" "") 42 7 rfl rfl rfl rfl).2 (by decide)⟩

/-- C7, concrete instances: "/foo", "/add foo", "/list" and "/showkeyboard" from
sender 42 in chat 7. -/
theorem handleCommand_spec_witness :
    (handleCommand sampleEnv ⟨none, some (sampleMessage 7 "/foo" true "foo" "")⟩ World.empty
        = .ok (SendTextMessage sampleEnv 7 "I don't know the command" World.empty) ∧
      (SendTextMessage sampleEnv 7 "I don't know the command" World.empty).sent =
        [{ ChatID := 7, Text := utf8 "I don't know the command", DisableWebPagePreview := true,
           ReplyMarkup := .none }]) ∧
    (∃ w1 : World,
      handleCommand sampleEnv ⟨none, some (sampleMessage 7 "/add foo" true "add" "foo")⟩
        World.empty = .ok w1 ∧
      w1.calls = [⟨"add foo", "42", true⟩]) ∧
    (∃ w1 : World,
      handleCommand sampleEnv ⟨none, some (sampleMessage 7 "/list" true "list" "")⟩
        World.empty = .ok w1 ∧
      w1.calls = [⟨"list", "42", true⟩]) ∧
    (∃ w1 : World,
      handleCommand sampleEnv
        ⟨none, some (sampleMessage 7 "/showkeyboard" true "showkeyboard" "")⟩
        World.empty = .ok w1 ∧
      w1.calls = []) :=
  ⟨(handleCommand_spec sampleEnv World.empty
      ⟨none, some (sampleMessage 7 "/foo" true "foo" "")⟩
      (sampleMessage 7 "/foo" true "foo" "") 42 7 rfl rfl rfl).2.2.2.2.2 (by decide),
   (handleCommand_spec sampleEnv World.empty
      ⟨none, some (sampleMessage 7 "/add foo" true "add" "foo")⟩
      (sampleMessage 7 "/add foo" true "add" "foo") 42 7 rfl rfl rfl).1 (Or.inl rfl),
   (handleCommand_spec sampleEnv World.empty
      ⟨none, some (sampleMessage 7 "/list" true "list" "")⟩
      (sampleMessage 7 "/list" true "list" "") 42 7 rfl rfl rfl).2.1 (Or.inr (Or.inl rfl)),
   (handleCommand_spec sampleEnv World.empty
      ⟨none, some (sampleMessage 7 "/showkeyboard" true "showkeyboard" "")⟩
      (sampleMessage 7 "/showkeyboard" true "showkeyboard" "") 42 7 rfl rfl rfl).2.2.1
      (by decide)⟩

/-- C8, a concrete instance: "/start" from sender 42 in chat 100 registers
("42", 100) once. -/
theorem handleCommand_start_witness :
    ∃ w1 : World,
      handleCommand sampleEnv ⟨none, some (sampleMessage 100 "/start" true "start" "")⟩
        World.empty
        = .ok (SendTextMessage sampleEnv 100
            "歡迎使用 Ptt Alertor\n輸入「指令」查看相關功能。" w1) ∧
      w1 = { World.empty with follows := [⟨"42", 100⟩] } ∧
      (SendTextMessage sampleEnv 100 "歡迎使用 Ptt Alertor\n輸入「指令」查看相關功能。" w1).follows =
        [⟨"42", 100⟩] ∧
      (SendTextMessage sampleEnv 100 "歡迎使用 Ptt Alertor\n輸入「指令」查看相關功能。" w1).calls =
        [] :=
  handleCommand_start sampleEnv World.empty
    ⟨none, some (sampleMessage 100 "/start" true "start" "")⟩
    (sampleMessage 100 "/start" true "start" "") 42 100 rfl rfl rfl rfl

end PttAlertor
